import Mathlib

/-!
Verification development for the single-node meta server
(`meta/src/service/single.rs`): the read/write/watch/debug routes and the
`process_watch` long-poll loop, together with a small interleaving model of
the reader/writer lock and the notification bus that the watch protocol
relies on.

Code that lives outside the shown service file (the `StateMachine` store,
its `read_change_logs`, `need_return`, `response_encode` and `dump`
helpers, and the lock/broadcast primitives) is modelled from the
specification; each such definition carries a doc comment saying so.
Everything else is translated directly from `single.rs`.
-/

/-- One change-log row: `(version, cluster, tenant, payload)`. -/
structure EntryLog where
  ver : Nat
  cluster : String
  tenant : String
  payload : String
deriving Repr, DecidableEq

/-- Modelled from the spec: the `StateMachine` store state visible to the
service layer — a monotonically increasing version counter, the append-only
change log, and the persistence view used by `dump` (snapshot data plus a
flag saying whether the persistence layer can currently be read). -/
structure StateMachine where
  version : Nat
  logs : List EntryLog
  snapshotData : String
  persistOk : Bool
deriving Repr, DecidableEq

/-- The `WatchData` / `ChangeLogResponse` value computed by
`read_change_logs`: the filtered entries and the maximum version observed. -/
structure WatchData where
  entry_logs : List EntryLog
  max_ver : Nat
deriving Repr, DecidableEq

/-- The error type surfaced by the routes (`MetaError`): a decode failure
on a request body, or a persistence failure from `dump`. -/
inductive MetaError where
  | decodeErr (msg : String)
  | persistErr (msg : String)
deriving Repr, DecidableEq

/-- Modelled from the spec: classification of `MetaError` values into
server errors (persistence failures on `debug`) versus client errors
(decode failures), per the error taxonomy. -/
def MetaError.isServerError : MetaError → Bool
  | .persistErr _ => true
  | .decodeErr _ => false

/-- Modelled from the spec: the tenant filter; an empty tenant set matches
all tenants of the cluster. -/
def tenantMatch (tenants : List String) (t : String) : Bool :=
  tenants.isEmpty || tenants.contains t

/-- Modelled from the spec: `StateMachine::read_change_logs` — a pure read
returning the change-log rows strictly after `base_ver` that match the
`(cluster, tenants)` filter, plus the store's current maximum version. -/
def StateMachine.read_change_logs (s : StateMachine) (cluster : String)
    (tenants : List String) (base_ver : Nat) : WatchData :=
  { entry_logs := s.logs.filter fun e =>
      decide (base_ver < e.ver) && (e.cluster == cluster) && tenantMatch tenants e.tenant
    max_ver := s.version }

/-- Modelled from the spec: `WatchData::need_return` — the response is due
when the filtered entry set is non-empty or the maximum version exceeds
the given base version. -/
def WatchData.need_return (d : WatchData) (base_ver : Nat) : Bool :=
  !d.entry_logs.isEmpty || decide (base_ver < d.max_ver)

/-- Flat textual form of one change-log row, used by `response_encode`. -/
def encodeEntry (e : EntryLog) : String :=
  toString e.ver ++ ":" ++ e.cluster ++ ":" ++ e.tenant ++ ":" ++ e.payload

/-- Message text carried by a `MetaError`. -/
def MetaError.msgOf : MetaError → String
  | .decodeErr m => m
  | .persistErr m => m

/-- Modelled from the spec: `response_encode` — the single generic helper
that wraps a `Result<WatchData>` in the uniform response envelope. -/
def response_encode (r : Except MetaError WatchData) : String :=
  match r with
  | .ok d =>
      "ok:" ++ toString d.max_ver ++ ";" ++
        String.intercalate "," (d.entry_logs.map encodeEntry)
  | .error e => "err:" ++ e.msgOf

/-- The decoded watch request: `(clientId, cluster, tenants, baseVersion)`. -/
structure WatchReq where
  client : String
  cluster : String
  tenants : List String
  base_ver : Nat
deriving Repr, DecidableEq

/-- The idle timeout of one WAITING step, in milliseconds (20 seconds). -/
def idleTimeoutMs : Nat := 20000

/-- The hard ceiling on total session time, in milliseconds (30 seconds). -/
def hardCeilingMs : Nat := 30000

/-- What the broadcast subscription delivers during one WAITING step: a
wake event after `ms` milliseconds, a channel error (closed or lagged
receiver) after `ms` milliseconds, or nothing within the timeout window. -/
inductive RecvEvent where
  | wakeAfter (ms : Nat)
  | errAfter (ms : Nat)
  | silent
deriving Repr, DecidableEq

/-- Modelled from the spec: the duration actually blocked by
`tokio::time::timeout(20s, notify.recv())` — the time until the
subscription yields (event or error), capped by the idle timeout. -/
def waitDuration : RecvEvent → Nat
  | .wakeAfter ms => min ms idleTimeoutMs
  | .errAfter ms => min ms idleTimeoutMs
  | .silent => idleTimeoutMs

/-- The environment's behaviour during one loop iteration: what the
subscription delivers while waiting, how long the post-wait bookkeeping
(lock acquisition, change-log read) takes, and the store state observed
by that iteration's check. -/
structure LoopObs where
  event : RecvEvent
  procMs : Nat
  store : StateMachine

/-- Wall-clock duration of loop iteration `n`: the blocked wait plus the
iteration's processing time. -/
def stepMs (sched : Nat → LoopObs) (n : Nat) : Nat :=
  waitDuration (sched n).event + (sched n).procMs

/-- Value of `now.elapsed()` at the check of loop iteration `n` (the
session clock starts just before the first wait). -/
def elapsedAt (sched : Nat → LoopObs) : Nat → Nat
  | 0 => stepMs sched 0
  | n + 1 => elapsedAt sched n + stepMs sched (n + 1)

/-- The `loop` of `process_watch`: wait (outcome discarded), re-read the
change log from `follow_ver`, return the encoded data when
`need_return(base_ver)` holds or the elapsed time exceeds the hard
ceiling, otherwise advance `follow_ver` and iterate. `fuel` bounds the
number of iterations modelled; `none` means the loop is still running. -/
def processWatchLoop (cluster : String) (tenants : List String) (base_ver : Nat)
    (sched : Nat → LoopObs) : Nat → Nat → Nat → Option String
  | 0, _, _ => none
  | fuel + 1, n, follow_ver =>
    let watch_data := (sched n).store.read_change_logs cluster tenants follow_ver
    if watch_data.need_return base_ver || decide (hardCeilingMs < elapsedAt sched n) then
      some (response_encode (.ok watch_data))
    else
      processWatchLoop cluster tenants base_ver sched fuel (n + 1)
        (max follow_ver watch_data.max_ver)

/-- `SingleServer::process_watch`: decode the request tuple, check once
under shared access (returning immediately when due, otherwise subscribing
before the lock is released), then run the wait/check loop. The decode
step is a parameter because JSON parsing is external; the store states
observed across the session are given by `storage` (initial check) and
`sched` (loop checks). -/
def process_watch (decode : String → Except MetaError WatchReq) (body : String)
    (storage : StateMachine) (sched : Nat → LoopObs) (fuel : Nat) :
    Except MetaError (Option String) :=
  match decode body with
  | .error e => .error e
  | .ok r =>
    let watch_data := storage.read_change_logs r.cluster r.tenants r.base_ver
    if watch_data.need_return r.base_ver then
      .ok (some (response_encode (.ok watch_data)))
    else
      .ok (processWatchLoop r.cluster r.tenants r.base_ver sched fuel 0 r.base_ver)

/-- The value of `follow_ver` at loop check `n`: it starts at `base_ver`
and after each non-terminal check becomes the maximum of itself and the
`max_ver` just computed (the `if follow_ver < watch_data.max_ver` update). -/
def followAt (cluster : String) (tenants : List String) (base_ver : Nat)
    (sched : Nat → LoopObs) : Nat → Nat
  | 0 => base_ver
  | n + 1 =>
    max (followAt cluster tenants base_ver sched n)
      ((sched n).store.read_change_logs cluster tenants
        (followAt cluster tenants base_ver sched n)).max_ver

/-- The change-log data computed at loop check `n`: read from the store
observed at that check, starting at the current follow version. -/
def wdAt (cluster : String) (tenants : List String) (base_ver : Nat)
    (sched : Nat → LoopObs) (n : Nat) : WatchData :=
  (sched n).store.read_change_logs cluster tenants
    (followAt cluster tenants base_ver sched n)

/-- The return condition of loop check `n` exactly as the loop evaluates
it: `need_return` applied to the *original* `base_ver` (not the follow
version) on the data just computed, or elapsed time strictly past the
hard ceiling. -/
def dueAt (cluster : String) (tenants : List String) (base_ver : Nat)
    (sched : Nat → LoopObs) (n : Nat) : Bool :=
  (wdAt cluster tenants base_ver sched n).need_return base_ver
    || decide (hardCeilingMs < elapsedAt sched n)

/-- Which kind of lock access a route acquired on the shared store. -/
inductive AccessKind where
  | shared
  | exclusive
deriving Repr, DecidableEq

/-- Outcome of one route invocation: the reply (or rejection), the store
state afterwards, and the lock accesses performed on the store. -/
structure RouteOut where
  result : Except MetaError String
  storage : StateMachine
  accesses : List AccessKind

/-- The `read` route: decode the body as a `ReadCommand` (rejecting on
failure before any store access), then answer under shared access via
`process_read_command`. The command type and its evaluation are
parameters: both live in the store layer, outside the service file. -/
def read_route {ReadCommand : Type}
    (decode : String → Except MetaError ReadCommand)
    (process_read_command : StateMachine → ReadCommand → String)
    (body : String) (storage : StateMachine) : RouteOut :=
  match decode body with
  | .error e => ⟨.error e, storage, []⟩
  | .ok cmd => ⟨.ok (process_read_command storage cmd), storage, [.shared]⟩

/-- The `write` route: decode the body as a `WriteCommand` (rejecting on
failure before any store access), then apply it under exclusive access via
`process_write_command`, which may mutate the store. -/
def write_route {WriteCommand : Type}
    (decode : String → Except MetaError WriteCommand)
    (process_write_command : StateMachine → WriteCommand → String × StateMachine)
    (body : String) (storage : StateMachine) : RouteOut :=
  match decode body with
  | .error e => ⟨.error e, storage, []⟩
  | .ok cmd =>
    let r := process_write_command storage cmd
    ⟨.ok r.1, r.2, [.exclusive]⟩

/-- Modelled from the spec: `StateMachine::dump` — full-state export that
fails with a persistence error when the underlying layer cannot be read. -/
def StateMachine.dump (s : StateMachine) : Except MetaError String :=
  if s.persistOk then .ok s.snapshotData
  else .error (.persistErr "persistence layer cannot be read")

/-- The `debug` route: take shared access, `dump`, and either return the
snapshot or reject with the dump failure. -/
def debug_route (storage : StateMachine) : RouteOut :=
  match storage.dump with
  | .ok d => ⟨.ok d, storage, [.shared]⟩
  | .error e => ⟨.error e, storage, [.shared]⟩

/-- Modelled from the spec: the atomic actions of tasks contending for the
reader/writer lock around the store and for the notification bus. Task
ids are natural numbers. A writer's `publish` is the wake broadcast that
`process_write_command` performs while the writer still holds exclusive
access. -/
inductive BusStep where
  | acquireShared (t : Nat)
  | releaseShared (t : Nat)
  | acquireExcl (t : Nat)
  | releaseExcl (t : Nat)
  | subscribe (t : Nat)
  | publish (t : Nat)
deriving Repr, DecidableEq

/-- Modelled from the spec: the shared lock-and-bus state — which tasks
hold shared access, which task (if any) holds exclusive access, the set of
current bus subscribers, and the log of wake broadcasts (each broadcast
records the subscribers that received it). -/
structure SysState where
  readers : List Nat
  writer : Option Nat
  subs : List Nat
  wakes : List (List Nat)
deriving Repr, DecidableEq

/-- Modelled from the spec: small-step semantics of the lock and bus.
Shared access is granted only while no writer holds the lock; exclusive
access only while no reader and no writer holds it; a publish requires
the publishing task to hold exclusive access and delivers the wake to the
subscribers registered at that moment. An invalid step yields `none`. -/
def busStepFn (s : SysState) : BusStep → Option SysState
  | .acquireShared t =>
    if s.writer = none then some { s with readers := t :: s.readers } else none
  | .releaseShared t =>
    if t ∈ s.readers then some { s with readers := s.readers.erase t } else none
  | .acquireExcl t =>
    if s.writer = none ∧ s.readers = [] then some { s with writer := some t } else none
  | .releaseExcl t =>
    if s.writer = some t then some { s with writer := none } else none
  | .subscribe t => some { s with subs := t :: s.subs }
  | .publish t =>
    if s.writer = some t then some { s with wakes := s.wakes ++ [s.subs] } else none

/-- Run a sequence of lock/bus steps; `none` when some step is invalid
(that interleaving cannot occur). -/
def runTrace (s : SysState) : List BusStep → Option SysState
  | [] => some s
  | st :: rest =>
    match busStepFn s st with
    | none => none
    | some s2 => runTrace s2 rest

/-! ### Trace lemmas for the lock/bus model -/

/-- Running a concatenation of step lists composes. -/
theorem runTrace_append (a b : List BusStep) :
    ∀ s : SysState, runTrace s (a ++ b) = (runTrace s a).bind (fun s2 => runTrace s2 b) := by
  induction a with
  | nil => intro s; simp [runTrace]
  | cons st rest ih =>
    intro s
    simp only [List.cons_append, runTrace]
    cases busStepFn s st with
    | none => simp
    | some s2 => simp [ih s2]

/-- While a task holds shared access (it is among the readers and never
performs its `releaseShared`), every valid continuation keeps it among the
readers, keeps the writer slot empty, and contains no successful publish:
a write cannot complete, hence cannot broadcast, in that window. -/
theorem hold_shared_blocks_publish (w : Nat) :
    ∀ (steps : List BusStep) (s s2 : SysState),
      runTrace s steps = some s2 → w ∈ s.readers → s.writer = none →
      BusStep.releaseShared w ∉ steps →
      w ∈ s2.readers ∧ s2.writer = none ∧ ∀ t, BusStep.publish t ∉ steps := by
  intro steps
  induction steps with
  | nil =>
    intro s s2 h hr hw _
    simp only [runTrace] at h
    cases h
    exact ⟨hr, hw, by simp⟩
  | cons st rest ih =>
    intro s s2 h hr hw hnr
    have hnr2 : BusStep.releaseShared w ∉ rest := fun hc => hnr (List.mem_cons_of_mem _ hc)
    simp only [runTrace] at h
    cases st with
    | acquireShared t =>
      rw [show busStepFn s (.acquireShared t) =
          some { s with readers := t :: s.readers } by simp [busStepFn, hw]] at h
      have := ih _ _ h (List.mem_cons_of_mem _ hr) hw hnr2
      exact ⟨this.1, this.2.1, fun u hc => by
        rcases List.mem_cons.mp hc with h1 | h1
        · exact BusStep.noConfusion h1
        · exact this.2.2 u h1⟩
    | releaseShared t =>
      have hne : t ≠ w := by
        intro hc; subst hc; exact hnr (List.mem_cons_self _ _)
      by_cases hmem : t ∈ s.readers
      · rw [show busStepFn s (.releaseShared t) =
            some { s with readers := s.readers.erase t } by simp [busStepFn, hmem]] at h
        have hr2 : w ∈ s.readers.erase t :=
          (List.mem_erase_of_ne (fun hc => hne hc.symm)).mpr hr
        have := ih _ _ h hr2 hw hnr2
        exact ⟨this.1, this.2.1, fun u hc => by
          rcases List.mem_cons.mp hc with h1 | h1
          · exact BusStep.noConfusion h1
          · exact this.2.2 u h1⟩
      · rw [show busStepFn s (.releaseShared t) = none by simp [busStepFn, hmem]] at h
        exact absurd h (by simp)
    | acquireExcl t =>
      have hne : ¬(s.writer = none ∧ s.readers = []) := by
        intro hc
        rw [hc.2] at hr
        exact List.not_mem_nil w hr
      rw [show busStepFn s (.acquireExcl t) = none by simp [busStepFn, hne]] at h
      exact absurd h (by simp)
    | releaseExcl t =>
      rw [show busStepFn s (.releaseExcl t) = none by simp [busStepFn, hw]] at h
      exact absurd h (by simp)
    | subscribe t =>
      rw [show busStepFn s (.subscribe t) =
          some { s with subs := t :: s.subs } by simp [busStepFn]] at h
      have := ih _ _ h hr hw hnr2
      exact ⟨this.1, this.2.1, fun u hc => by
        rcases List.mem_cons.mp hc with h1 | h1
        · exact BusStep.noConfusion h1
        · exact this.2.2 u h1⟩
    | publish t =>
      rw [show busStepFn s (.publish t) = none by simp [busStepFn, hw]] at h
      exact absurd h (by simp)

/-- Once a task is subscribed it stays subscribed (the model has no
unsubscribe step), and every wake broadcast published from then on is
delivered to it. -/
theorem subscribed_receives_all (w : Nat) :
    ∀ (steps : List BusStep) (s s2 : SysState),
      runTrace s steps = some s2 → w ∈ s.subs →
      w ∈ s2.subs ∧ ∀ l ∈ s2.wakes, l ∈ s.wakes ∨ w ∈ l := by
  intro steps
  induction steps with
  | nil =>
    intro s s2 h hs
    simp only [runTrace] at h
    cases h
    exact ⟨hs, fun l hl => Or.inl hl⟩
  | cons st rest ih =>
    intro s s2 h hs
    simp only [runTrace] at h
    cases hstep : busStepFn s st with
    | none => rw [hstep] at h; exact absurd h (by simp)
    | some smid =>
      rw [hstep] at h
      have key : w ∈ smid.subs ∧ ∀ l ∈ smid.wakes, l ∈ s.wakes ∨ w ∈ l := by
        cases st with
        | acquireShared t =>
          simp only [busStepFn] at hstep
          split at hstep
          · cases hstep; exact ⟨hs, fun l hl => Or.inl hl⟩
          · exact absurd hstep (by simp)
        | releaseShared t =>
          simp only [busStepFn] at hstep
          split at hstep
          · cases hstep; exact ⟨hs, fun l hl => Or.inl hl⟩
          · exact absurd hstep (by simp)
        | acquireExcl t =>
          simp only [busStepFn] at hstep
          split at hstep
          · cases hstep; exact ⟨hs, fun l hl => Or.inl hl⟩
          · exact absurd hstep (by simp)
        | releaseExcl t =>
          simp only [busStepFn] at hstep
          split at hstep
          · cases hstep; exact ⟨hs, fun l hl => Or.inl hl⟩
          · exact absurd hstep (by simp)
        | subscribe t =>
          simp only [busStepFn] at hstep
          cases hstep
          exact ⟨List.mem_cons_of_mem _ hs, fun l hl => Or.inl hl⟩
        | publish t =>
          simp only [busStepFn] at hstep
          split at hstep
          · cases hstep
            refine ⟨hs, fun l hl => ?_⟩
            rcases List.mem_append.mp hl with h1 | h1
            · exact Or.inl h1
            · rcases List.mem_singleton.mp h1 with rfl
              exact Or.inr hs
          · exact absurd hstep (by simp)
      have hrec := ih _ _ h key.1
      refine ⟨hrec.1, fun l hl => ?_⟩
      rcases hrec.2 l hl with h1 | h1
      · exact key.2 l h1
      · exact Or.inr h1

/-- C1: in the initial CHECKING step the watcher holds shared access
continuously from its change-log check through its `subscribe`; because a
write needs exclusive access and publishes its wake while holding it, no
publish can occur between the watcher's check and its subscription
(`mid` holds everything that happens in that window), and every wake
broadcast after the subscription is delivered to the watcher — it cannot
miss the wake event of the next write. -/
theorem watch_check_subscribe_race_free
    (s0 s1 s2 s3 sf : SysState) (pre mid post : List BusStep) (w : Nat)
    (hpre : runTrace s0 pre = some s1)
    (hacq : busStepFn s1 (.acquireShared w) = some s2)
    (hmid : runTrace s2 mid = some s3)
    (hnr : BusStep.releaseShared w ∉ mid)
    (hsub : (busStepFn s3 (.subscribe w)).bind (fun s4 => runTrace s4 post) = some sf) :
    (∀ t, BusStep.publish t ∉ mid) ∧ (∀ l ∈ sf.wakes, l ∈ s3.wakes ∨ w ∈ l) := by
  have hw1 : s1.writer = none := by
    by_cases hc : s1.writer = none
    · exact hc
    · rw [show busStepFn s1 (.acquireShared w) = none by simp [busStepFn, hc]] at hacq
      exact absurd hacq (by simp)
  have hs2 : s2 = { s1 with readers := w :: s1.readers } := by
    rw [show busStepFn s1 (.acquireShared w) =
        some { s1 with readers := w :: s1.readers } by simp [busStepFn, hw1]] at hacq
    exact (Option.some_inj.mp hacq).symm
  have hhold := hold_shared_blocks_publish w mid s2 s3 hmid
    (by rw [hs2]; exact List.mem_cons_self _ _) (by rw [hs2]; exact hw1) hnr
  have hsub2 : runTrace { s3 with subs := w :: s3.subs } post = some sf := by
    rw [show busStepFn s3 (.subscribe w) =
        some { s3 with subs := w :: s3.subs } by simp [busStepFn]] at hsub
    simpa using hsub
  have hrecv := subscribed_receives_all w post { s3 with subs := w :: s3.subs } sf hsub2
    (List.mem_cons_self _ _)
  exact ⟨hhold.2.2, hrecv.2⟩

/-- Witness for C1 at a concrete interleaving: the watcher (task 1)
acquires shared access, other readers come and go in between, task 1
subscribes, releases, and only then can writer task 9 acquire exclusive
access and publish — and its wake is delivered to task 1. -/
theorem watch_check_subscribe_race_free_witness :
    (∀ t, BusStep.publish t ∉ [BusStep.acquireShared 2, BusStep.releaseShared 2]) ∧
    (∀ l ∈ (⟨[], none, [1], [[1]]⟩ : SysState).wakes,
      l ∈ (⟨[1], none, [], []⟩ : SysState).wakes ∨ 1 ∈ l) :=
  watch_check_subscribe_race_free ⟨[], none, [], []⟩ ⟨[], none, [], []⟩
    ⟨[1], none, [], []⟩ ⟨[1], none, [], []⟩ ⟨[], none, [1], [[1]]⟩
    [] [BusStep.acquireShared 2, BusStep.releaseShared 2]
    [BusStep.releaseShared 1, BusStep.acquireExcl 9, BusStep.publish 9, BusStep.releaseExcl 9]
    1 rfl rfl rfl (by decide) rfl

/-! ### Loop lemmas for the watch session -/

/-- One blocked wait never exceeds the idle timeout. -/
theorem waitDuration_le_idle (e : RecvEvent) : waitDuration e ≤ idleTimeoutMs := by
  cases e with
  | wakeAfter ms => exact min_le_right _ _
  | errAfter ms => exact min_le_right _ _
  | silent => exact Nat.le_refl _

/-- If some check within the remaining fuel happens after the hard
ceiling, the loop returns (the elapsed-time test does not depend on
`follow_ver`, so this holds for every follow version). -/
theorem loop_isSome_of_ceiling (cluster : String) (tenants : List String) (base_ver : Nat)
    (sched : Nat → LoopObs) :
    ∀ (fuel n follow_ver : Nat),
      (∃ k, k < fuel ∧ hardCeilingMs < elapsedAt sched (n + k)) →
      (processWatchLoop cluster tenants base_ver sched fuel n follow_ver).isSome := by
  intro fuel
  induction fuel with
  | zero =>
    rintro n f ⟨k, hk, _⟩
    exact absurd hk (Nat.not_lt_zero k)
  | succ fuel ih =>
    rintro n f ⟨k, hk, hc⟩
    rw [processWatchLoop]
    split
    · simp
    · rename_i hcond
      apply ih
      have hn : ¬ hardCeilingMs < elapsedAt sched n := by
        intro hlt
        exact hcond (by simp [hlt])
      cases k with
      | zero => exact absurd hc (by simpa using hn)
      | succ k =>
        exact ⟨k, Nat.lt_of_succ_lt_succ hk, by
          have : n + 1 + k = n + (k + 1) := by omega
          rw [this]; exact hc⟩

/-- When every loop iteration consumes at least one millisecond of
processing time, the session clock strictly advances: the check of loop
iteration `n` happens at time at least `n + 1`. -/
theorem elapsedAt_lower (sched : Nat → LoopObs) (hp : ∀ n, 1 ≤ (sched n).procMs) :
    ∀ n, n + 1 ≤ elapsedAt sched n := by
  intro n
  induction n with
  | zero =>
    have h0 := hp 0
    simp only [elapsedAt, stepMs]
    omega
  | succ n ih =>
    have h1 := hp (n + 1)
    simp only [elapsedAt, stepMs]
    omega

/-- C3: every watch session terminates. Each WAITING step blocks for at
most the 20-second idle timeout whatever the subscription delivers, and
as long as real time advances (each iteration takes at least one
millisecond), a fuel budget of `hardCeilingMs + 1` iterations is enough
for `process_watch` to return a response on every path — it never runs
out of fuel (`.ok none`), whatever the store does. -/
theorem watch_session_terminates (decode : String → Except MetaError WatchReq)
    (body : String) (storage : StateMachine) (sched : Nat → LoopObs) (fuel : Nat)
    (hp : ∀ n, 1 ≤ (sched n).procMs) (hf : hardCeilingMs + 1 ≤ fuel) :
    (∀ e, waitDuration e ≤ idleTimeoutMs) ∧
      process_watch decode body storage sched fuel ≠ .ok none := by
  refine ⟨waitDuration_le_idle, ?_⟩
  unfold process_watch
  cases hd : decode body with
  | error e => simp [hd]
  | ok r =>
    simp only [hd]
    split
    · simp
    · intro hc
      have hloop : processWatchLoop r.cluster r.tenants r.base_ver sched fuel 0 r.base_ver
          = none := by simpa using hc
      have hsome := loop_isSome_of_ceiling r.cluster r.tenants r.base_ver sched fuel 0
        r.base_ver ⟨hardCeilingMs, by omega, by
          have h1 := elapsedAt_lower sched hp hardCeilingMs
          rw [Nat.zero_add]
          omega⟩
      rw [hloop] at hsome
      exact absurd hsome (by simp)

/-- Witness for C3 at a concrete session: an always-silent subscription,
one millisecond of processing per iteration, an empty store, and a fuel
budget of 30001 iterations — the session provably returns. -/
theorem watch_session_terminates_witness :
    (∀ e, waitDuration e ≤ idleTimeoutMs) ∧
      process_watch (fun _ => .ok ⟨"c", "cl", [], 0⟩) "b" ⟨0, [], "", true⟩
        (fun _ => ⟨RecvEvent.silent, 1, ⟨0, [], "", true⟩⟩) 30001 ≠ .ok none :=
  watch_session_terminates (fun _ => .ok ⟨"c", "cl", [], 0⟩) "b" ⟨0, [], "", true⟩
    (fun _ => ⟨RecvEvent.silent, 1, ⟨0, [], "", true⟩⟩) 30001
    (fun _ => Nat.le_refl 1) (by decide)

/-- C4: `follow_ver` starts at `base_ver`; it never decreases; it satisfies
`base_ver ≤ follow_ver` at every loop check; after each non-terminal check
it becomes the maximum of its old value and the `max_ver` just computed;
and the loop's check at step `n` reads the change log starting from the
current follow version (not from `base_ver`). -/
theorem follow_version_invariant (cluster : String) (tenants : List String)
    (base_ver : Nat) (sched : Nat → LoopObs) :
    (followAt cluster tenants base_ver sched 0 = base_ver) ∧
    (∀ n, followAt cluster tenants base_ver sched n ≤
      followAt cluster tenants base_ver sched (n + 1)) ∧
    (∀ n, base_ver ≤ followAt cluster tenants base_ver sched n) ∧
    (∀ n, followAt cluster tenants base_ver sched (n + 1) =
      max (followAt cluster tenants base_ver sched n)
        ((sched n).store.read_change_logs cluster tenants
          (followAt cluster tenants base_ver sched n)).max_ver) ∧
    (∀ fuel n,
      processWatchLoop cluster tenants base_ver sched (fuel + 1) n
          (followAt cluster tenants base_ver sched n) =
        if ((sched n).store.read_change_logs cluster tenants
              (followAt cluster tenants base_ver sched n)).need_return base_ver
            || decide (hardCeilingMs < elapsedAt sched n) then
          some (response_encode (.ok ((sched n).store.read_change_logs cluster tenants
            (followAt cluster tenants base_ver sched n))))
        else
          processWatchLoop cluster tenants base_ver sched fuel (n + 1)
            (followAt cluster tenants base_ver sched (n + 1))) := by
  refine ⟨rfl, fun n => ?_, fun n => ?_, fun n => rfl, fun fuel n => rfl⟩
  · rw [followAt]
    exact le_max_left _ _
  · induction n with
    | zero => exact Nat.le_refl _
    | succ n ih =>
      rw [followAt]
      exact le_trans ih (le_max_left _ _)

/-- Every loop return value is the single encode helper applied to an
`Ok` result. -/
theorem loop_result_encoded (cluster : String) (tenants : List String)
    (base_ver : Nat) (sched : Nat → LoopObs) :
    ∀ (fuel n follow_ver : Nat) (out : String),
      processWatchLoop cluster tenants base_ver sched fuel n follow_ver = some out →
      ∃ wd : WatchData, out = response_encode (.ok wd) := by
  intro fuel
  induction fuel with
  | zero =>
    intro n f out h
    rw [processWatchLoop] at h
    exact absurd h (by simp)
  | succ fuel ih =>
    intro n f out h
    rw [processWatchLoop] at h
    split at h
    · exact ⟨_, (Option.some_inj.mp h).symm⟩
    · exact ih _ _ _ h

/-- C5: every successful watch response — immediate-return path and
loop-return path alike — is `response_encode` applied to an `Ok` watch
data value, so the returned string has one response shape regardless of
which path produced it. -/
theorem watch_single_response_shape (decode : String → Except MetaError WatchReq)
    (body : String) (storage : StateMachine) (sched : Nat → LoopObs)
    (fuel : Nat) (out : String)
    (h : process_watch decode body storage sched fuel = .ok (some out)) :
    ∃ wd : WatchData, out = response_encode (.ok wd) := by
  cases hd : decode body with
  | error e =>
    simp only [process_watch, hd] at h
    exact absurd h (by simp)
  | ok r =>
    simp only [process_watch, hd] at h
    split at h
    · simp only [Except.ok.injEq, Option.some.injEq] at h
      exact ⟨_, h.symm⟩
    · simp only [Except.ok.injEq] at h
      exact loop_result_encoded _ _ _ _ _ _ _ _ h

/-- Witness for C5 at a concrete immediate return: a store at version 1
with a watcher at base version 0 returns at the first check, and the
returned body is the encode helper applied to an `Ok` result. -/
theorem watch_single_response_shape_witness :
    ∃ wd : WatchData, "ok:1;" = response_encode (.ok wd) :=
  watch_single_response_shape (fun _ => .ok ⟨"c", "cl", [], 0⟩) "b" ⟨1, [], "", true⟩
    (fun _ => ⟨RecvEvent.silent, 0, ⟨1, [], "", true⟩⟩) 1 "ok:1;" rfl

/-- C6: on a request body that fails decoding, each of the read, write and
watch routes rejects with exactly the decode failure, the store state is
unchanged, and no lock access is performed: for `read` and `write` the
access list is empty, and the `process_watch` result neither depends on
the store nor on the session schedule. -/
theorem decode_failure_rejects_without_store_access :
    (∀ (RC : Type) (decode : String → Except MetaError RC)
        (process_read_command : StateMachine → RC → String)
        (body : String) (storage : StateMachine) (e : MetaError),
      decode body = .error e →
      read_route decode process_read_command body storage = ⟨.error e, storage, []⟩) ∧
    (∀ (WC : Type) (decode : String → Except MetaError WC)
        (process_write_command : StateMachine → WC → String × StateMachine)
        (body : String) (storage : StateMachine) (e : MetaError),
      decode body = .error e →
      write_route decode process_write_command body storage = ⟨.error e, storage, []⟩) ∧
    (∀ (decode : String → Except MetaError WatchReq) (body : String)
        (storage : StateMachine) (sched : Nat → LoopObs) (fuel : Nat) (e : MetaError),
      decode body = .error e →
      process_watch decode body storage sched fuel = .error e) ∧
    (∀ (decode : String → Except MetaError WatchReq) (body : String)
        (storage storage2 : StateMachine) (sched sched2 : Nat → LoopObs)
        (fuel fuel2 : Nat) (e : MetaError),
      decode body = .error e →
      process_watch decode body storage sched fuel =
        process_watch decode body storage2 sched2 fuel2) := by
  refine ⟨?_, ?_, ?_, ?_⟩
  · intro RC decode prc body storage e hd
    simp [read_route, hd]
  · intro WC decode pwc body storage e hd
    simp [write_route, hd]
  · intro decode body storage sched fuel e hd
    simp [process_watch, hd]
  · intro decode body storage storage2 sched sched2 fuel fuel2 e hd
    simp [process_watch, hd]

/-- Witness for C6 at a concrete failing decoder on each route. -/
theorem decode_failure_rejects_without_store_access_witness :
    (read_route (fun _ => .error (.decodeErr "bad")) (fun (_ : StateMachine) (_ : String) => "r")
        "x" ⟨0, [], "", true⟩ = ⟨.error (.decodeErr "bad"), ⟨0, [], "", true⟩, []⟩) ∧
    (write_route (fun _ => .error (.decodeErr "bad"))
        (fun (s : StateMachine) (_ : String) => ("w", s)) "x" ⟨0, [], "", true⟩ =
      ⟨.error (.decodeErr "bad"), ⟨0, [], "", true⟩, []⟩) ∧
    (process_watch (fun _ => .error (.decodeErr "bad")) "x" ⟨0, [], "", true⟩
        (fun _ => ⟨RecvEvent.silent, 0, ⟨0, [], "", true⟩⟩) 3 = .error (.decodeErr "bad")) ∧
    (process_watch (fun _ => .error (.decodeErr "bad")) "x" ⟨0, [], "", true⟩
        (fun _ => ⟨RecvEvent.silent, 0, ⟨0, [], "", true⟩⟩) 3 =
      process_watch (fun _ => .error (.decodeErr "bad")) "x" ⟨7, [], "z", false⟩
        (fun _ => ⟨RecvEvent.wakeAfter 5, 9, ⟨7, [], "z", false⟩⟩) 9) :=
  ⟨decode_failure_rejects_without_store_access.1 String _ _ "x" _ _ rfl,
   decode_failure_rejects_without_store_access.2.1 String _ _ "x" _ _ rfl,
   decode_failure_rejects_without_store_access.2.2.1 _ "x" _ _ 3 _ rfl,
   decode_failure_rejects_without_store_access.2.2.2 _ "x" _ _ _ _ 3 9 _ rfl⟩

/-- When the watcher's base version equals the store's version and the
store never changes, every check computes the empty response at the
store's version, so the loop can only return past the hard ceiling — and
the return happens at the first check past the ceiling. -/
theorem loop_unchanged_store (cluster : String) (tenants : List String)
    (storage : StateMachine) (sched : Nat → LoopObs)
    (hw : ∀ e ∈ storage.logs, e.ver ≤ storage.version)
    (hs : ∀ n, (sched n).store = storage) :
    ∀ (fuel n : Nat) (out : String),
      (∀ k, k < n → elapsedAt sched k ≤ hardCeilingMs) →
      processWatchLoop cluster tenants storage.version sched fuel n storage.version
        = some out →
      out = response_encode (.ok ⟨[], storage.version⟩) ∧
        ∃ m, (∀ k, k < m → elapsedAt sched k ≤ hardCeilingMs) ∧
          hardCeilingMs < elapsedAt sched m := by
  have hwd : ∀ n, (sched n).store.read_change_logs cluster tenants storage.version
      = ⟨[], storage.version⟩ := by
    intro n
    rw [hs n]
    unfold StateMachine.read_change_logs
    refine congrArg (fun l => WatchData.mk l storage.version) ?_
    rw [List.filter_eq_nil]
    intro e he
    simp only [Bool.and_eq_true, decide_eq_true_eq]
    intro hc
    exact absurd hc.1.1 (Nat.not_lt.mpr (hw e he))
  have hnr : (⟨[], storage.version⟩ : WatchData).need_return storage.version = false := by
    simp [WatchData.need_return]
  intro fuel
  induction fuel with
  | zero =>
    intro n out _ h
    rw [processWatchLoop] at h
    exact absurd h (by simp)
  | succ fuel ih =>
    intro n out hall h
    rw [processWatchLoop] at h
    simp only [hwd n, hnr, Bool.false_or] at h
    by_cases hc : hardCeilingMs < elapsedAt sched n
    · rw [if_pos (by simpa using hc)] at h
      exact ⟨(Option.some_inj.mp h).symm, n, hall, hc⟩
    · rw [if_neg (by simpa using hc)] at h
      have hmax : max storage.version (⟨[], storage.version⟩ : WatchData).max_ver
          = storage.version := Nat.max_self _
      rw [hmax] at h
      exact ih (n + 1) out
        (fun k hk => by
          rcases Nat.lt_succ_iff_lt_or_eq.mp hk with h1 | h1
          · exact hall k h1
          · subst h1; exact Nat.not_lt.mp hc) h

/-- C7: a watch whose `baseVersion` equals the store's current maximum
version, with no write occurring during the call (every loop check sees
the same store), never finds the response due: when it returns, the body
is the encoding of an empty entry set with `maxVersion = baseVersion`,
and the returning check is the first one past the 30-second hard
ceiling. -/
theorem watch_at_current_version_returns_at_ceiling
    (decode : String → Except MetaError WatchReq) (body : String)
    (storage : StateMachine) (sched : Nat → LoopObs) (r : WatchReq)
    (fuel : Nat) (out : String)
    (hd : decode body = .ok r)
    (hb : r.base_ver = storage.version)
    (hw : ∀ e ∈ storage.logs, e.ver ≤ storage.version)
    (hs : ∀ n, (sched n).store = storage)
    (h : process_watch decode body storage sched fuel = .ok (some out)) :
    out = response_encode (.ok ⟨[], r.base_ver⟩) ∧
      ∃ m, (∀ k, k < m → elapsedAt sched k ≤ hardCeilingMs) ∧
        hardCeilingMs < elapsedAt sched m := by
  have hwd0 : storage.read_change_logs r.cluster r.tenants storage.version
      = ⟨[], storage.version⟩ := by
    unfold StateMachine.read_change_logs
    refine congrArg (fun l => WatchData.mk l storage.version) ?_
    rw [List.filter_eq_nil]
    intro e he
    simp only [Bool.and_eq_true, decide_eq_true_eq]
    intro hc
    exact absurd hc.1.1 (Nat.not_lt.mpr (hw e he))
  simp only [process_watch, hd, hb] at h
  rw [hwd0] at h
  rw [if_neg (by simp [WatchData.need_return])] at h
  simp only [Except.ok.injEq] at h
  have := loop_unchanged_store r.cluster r.tenants storage sched hw hs fuel 0 out
    (fun k hk => absurd hk (Nat.not_lt_zero k)) h
  rw [hb]
  exact this

/-- Witness for C7: store at version 3 with one entry at version 3, a
watcher at base version 3, no writes, one millisecond of processing per
iteration — the session returns the empty response at version 3 at the
first check past the ceiling. -/
theorem watch_at_current_version_returns_at_ceiling_witness :
    "ok:3;" = response_encode (.ok ⟨[], 3⟩) ∧
      ∃ m, (∀ k, k < m →
          elapsedAt (fun _ => ⟨RecvEvent.silent, 1, ⟨3, [⟨3, "c", "t", "p"⟩], "s", true⟩⟩) k
            ≤ hardCeilingMs) ∧
        hardCeilingMs <
          elapsedAt (fun _ => ⟨RecvEvent.silent, 1, ⟨3, [⟨3, "c", "t", "p"⟩], "s", true⟩⟩) m :=
  watch_at_current_version_returns_at_ceiling
    (fun _ => .ok ⟨"id", "c", ["t"], 3⟩) "b" ⟨3, [⟨3, "c", "t", "p"⟩], "s", true⟩
    (fun _ => ⟨RecvEvent.silent, 1, ⟨3, [⟨3, "c", "t", "p"⟩], "s", true⟩⟩)
    ⟨"id", "c", ["t"], 3⟩ 3 "ok:3;" rfl rfl (by decide) (fun _ => rfl) rfl

/-- C9: the result of the WAITING step is discarded. Two sessions whose
subscriptions behave differently (wake delivered, channel error, or
nothing) but take the same blocked time proceed identically through every
check; and once the request decodes, `process_watch` can never return an
error — a failed or closed notification subscription cannot fail a watch
call. -/
theorem wait_outcome_discarded (cluster : String) (tenants : List String)
    (base_ver : Nat) (sched1 sched2 : Nat → LoopObs)
    (hsame : ∀ m, (sched1 m).store = (sched2 m).store ∧
        waitDuration (sched1 m).event = waitDuration (sched2 m).event ∧
        (sched1 m).procMs = (sched2 m).procMs) :
    (∀ fuel n follow_ver,
      processWatchLoop cluster tenants base_ver sched1 fuel n follow_ver =
        processWatchLoop cluster tenants base_ver sched2 fuel n follow_ver) ∧
    (∀ (decode : String → Except MetaError WatchReq) (body : String)
        (storage : StateMachine) (fuel : Nat) (r : WatchReq) (e : MetaError),
      decode body = .ok r →
      process_watch decode body storage sched1 fuel ≠ .error e) := by
  have hstep : ∀ m, stepMs sched1 m = stepMs sched2 m := by
    intro m
    unfold stepMs
    rw [(hsame m).2.1, (hsame m).2.2]
  have helap : ∀ m, elapsedAt sched1 m = elapsedAt sched2 m := by
    intro m
    induction m with
    | zero => simp only [elapsedAt, hstep 0]
    | succ m ih => simp only [elapsedAt, ih, hstep (m + 1)]
  constructor
  · intro fuel
    induction fuel with
    | zero => intro n f; rfl
    | succ fuel ih =>
      intro n f
      simp only [processWatchLoop]
      rw [(hsame n).1, helap n]
      by_cases hc : (((sched2 n).store.read_change_logs cluster tenants f).need_return base_ver
          || decide (hardCeilingMs < elapsedAt sched2 n)) = true
      · rw [if_pos hc, if_pos hc]
      · rw [if_neg hc, if_neg hc, ih]
  · intro decode body storage fuel r e hd
    simp only [process_watch, hd]
    split
    · simp
    · simp

/-- Witness for C9: a wake event arriving at the timeout boundary versus a
channel error at the timeout boundary — identical store and timing — give
identical loop behaviour, and a decodable request never yields an error. -/
theorem wait_outcome_discarded_witness :
    (∀ fuel n follow_ver,
      processWatchLoop "c" ["t"] 0
          (fun _ => ⟨RecvEvent.wakeAfter 25000, 1, ⟨0, [], "", true⟩⟩) fuel n follow_ver =
        processWatchLoop "c" ["t"] 0
          (fun _ => ⟨RecvEvent.errAfter 20000, 1, ⟨0, [], "", true⟩⟩) fuel n follow_ver) ∧
    (∀ (decode : String → Except MetaError WatchReq) (body : String)
        (storage : StateMachine) (fuel : Nat) (r : WatchReq) (e : MetaError),
      decode body = .ok r →
      process_watch decode body storage
          (fun _ => ⟨RecvEvent.wakeAfter 25000, 1, ⟨0, [], "", true⟩⟩) fuel ≠ .error e) :=
  wait_outcome_discarded "c" ["t"] 0
    (fun _ => ⟨RecvEvent.wakeAfter 25000, 1, ⟨0, [], "", true⟩⟩)
    (fun _ => ⟨RecvEvent.errAfter 20000, 1, ⟨0, [], "", true⟩⟩)
    (fun _ => ⟨rfl, rfl, rfl⟩)

/-- When no check ever finds the response due, the loop returns at the
first check whose elapsed time exceeds the hard ceiling, and that
check's elapsed time exceeds the ceiling by at most one idle timeout
plus that iteration's processing time. -/
theorem loop_never_due_first_past_ceiling (cluster : String) (tenants : List String)
    (b : Nat) (sched : Nat → LoopObs)
    (hnd : ∀ m f, ((sched m).store.read_change_logs cluster tenants f).need_return b = false) :
    ∀ (fuel n f : Nat) (out : String),
      (∀ k, k < n → elapsedAt sched k ≤ hardCeilingMs) →
      processWatchLoop cluster tenants b sched fuel n f = some out →
      ∃ m, (∀ k, k < m → elapsedAt sched k ≤ hardCeilingMs) ∧
        hardCeilingMs < elapsedAt sched m ∧
        elapsedAt sched m ≤ hardCeilingMs + idleTimeoutMs + (sched m).procMs := by
  intro fuel
  induction fuel with
  | zero =>
    intro n f out _ h
    rw [processWatchLoop] at h
    exact absurd h (by simp)
  | succ fuel ih =>
    intro n f out hall h
    rw [processWatchLoop] at h
    simp only [hnd n f, Bool.false_or] at h
    by_cases hc : hardCeilingMs < elapsedAt sched n
    · refine ⟨n, hall, hc, ?_⟩
      have hwle := waitDuration_le_idle (sched n).event
      cases n with
      | zero =>
        have he : elapsedAt sched 0 = waitDuration (sched 0).event + (sched 0).procMs := rfl
        omega
      | succ k =>
        have he : elapsedAt sched (k + 1) =
            elapsedAt sched k + (waitDuration (sched (k + 1)).event + (sched (k + 1)).procMs) :=
          rfl
        have hk := hall k (Nat.lt_succ_self k)
        have hwle2 := waitDuration_le_idle (sched (k + 1)).event
        omega
    · rw [if_neg (by simpa using hc)] at h
      exact ih (n + 1) _ out
        (fun k hk => by
          rcases Nat.lt_succ_iff_lt_or_eq.mp hk with h1 | h1
          · exact hall k h1
          · subst h1; exact Nat.not_lt.mp hc) h

/-- C10: the hard-ceiling condition is evaluated only at checks that
follow a WAITING step. At the initial check the decision is `need_return`
alone — a due first check returns identically for every schedule and fuel
budget, so time plays no role there — and a session whose response is
never due returns at the first loop check past the ceiling, whose elapsed
time can exceed the ceiling by up to one full idle timeout (plus that
iteration's processing time). -/
theorem hard_ceiling_checked_only_after_waiting :
    (∀ (decode : String → Except MetaError WatchReq) (body : String)
        (storage : StateMachine) (sched1 sched2 : Nat → LoopObs) (fuel1 fuel2 : Nat)
        (r : WatchReq),
      decode body = .ok r →
      (storage.read_change_logs r.cluster r.tenants r.base_ver).need_return r.base_ver = true →
      process_watch decode body storage sched1 fuel1 =
        .ok (some (response_encode (.ok
          (storage.read_change_logs r.cluster r.tenants r.base_ver)))) ∧
      process_watch decode body storage sched1 fuel1 =
        process_watch decode body storage sched2 fuel2) ∧
    (∀ (cluster : String) (tenants : List String) (b : Nat) (sched : Nat → LoopObs)
        (fuel : Nat) (out : String),
      (∀ m f, ((sched m).store.read_change_logs cluster tenants f).need_return b = false) →
      processWatchLoop cluster tenants b sched fuel 0 b = some out →
      ∃ m, (∀ k, k < m → elapsedAt sched k ≤ hardCeilingMs) ∧
        hardCeilingMs < elapsedAt sched m ∧
        elapsedAt sched m ≤ hardCeilingMs + idleTimeoutMs + (sched m).procMs) := by
  constructor
  · intro decode body storage sched1 sched2 fuel1 fuel2 r hd hnr
    simp only [process_watch, hd]
    rw [if_pos hnr, if_pos hnr]
    exact ⟨rfl, rfl⟩
  · intro cluster tenants b sched fuel out hnd h
    exact loop_never_due_first_past_ceiling cluster tenants b sched hnd fuel 0 b out
      (fun k hk => absurd hk (Nat.not_lt_zero k)) h

/-- Witness for C10: a session whose checks fall at 10, 30 and 50 seconds
(the 30-second check is not yet past the strict ceiling) returns at the
50-second check — exactly the hard ceiling plus one full idle timeout. -/
theorem hard_ceiling_checked_only_after_waiting_witness :
    (∃ m, (∀ k, k < m →
        elapsedAt (fun m2 => ⟨if m2 = 0 then RecvEvent.wakeAfter 10000 else RecvEvent.silent, 0,
          ⟨0, [], "", true⟩⟩) k ≤ hardCeilingMs) ∧
      hardCeilingMs < elapsedAt (fun m2 => ⟨if m2 = 0 then RecvEvent.wakeAfter 10000 else
        RecvEvent.silent, 0, ⟨0, [], "", true⟩⟩) m ∧
      elapsedAt (fun m2 => ⟨if m2 = 0 then RecvEvent.wakeAfter 10000 else RecvEvent.silent, 0,
        ⟨0, [], "", true⟩⟩) m ≤ hardCeilingMs + idleTimeoutMs +
        ((fun m2 => ⟨if m2 = 0 then RecvEvent.wakeAfter 10000 else RecvEvent.silent, 0,
          (⟨0, [], "", true⟩ : StateMachine)⟩ : Nat → LoopObs) m).procMs) ∧
    elapsedAt (fun m2 => ⟨if m2 = 0 then RecvEvent.wakeAfter 10000 else RecvEvent.silent, 0,
      ⟨0, [], "", true⟩⟩) 2 = hardCeilingMs + idleTimeoutMs :=
  ⟨hard_ceiling_checked_only_after_waiting.2 "c" [] 0
    (fun m2 => ⟨if m2 = 0 then RecvEvent.wakeAfter 10000 else RecvEvent.silent, 0,
      ⟨0, [], "", true⟩⟩) 4 "ok:0;" (fun _ _ => rfl) rfl,
   by decide⟩

/-- C2 counterexample: a session whose first check is not due (base
version 5 equals the store's version) sees a write to a *different*
tenant before its next check. The filtered entry set stays empty, yet the
loop check — which passes the original `base_ver`, not `follow_ver`, to
`need_return` — returns at elapsed time 20 seconds, well before the hard
ceiling, with an empty entry set: version progress alone makes the
response due on a subsequent check too, not only on the very first one. -/
theorem version_progress_returns_on_later_check :
    ((⟨5, [⟨5, "c1", "t1", "p"⟩], "s", true⟩ : StateMachine).read_change_logs
        "c1" ["t1"] 5).need_return 5 = false ∧
    processWatchLoop "c1" ["t1"] 5
        (fun _ => ⟨RecvEvent.silent, 0,
          ⟨6, [⟨5, "c1", "t1", "p"⟩, ⟨6, "c1", "t2", "q"⟩], "s", true⟩⟩) 1 0 5 =
      some (response_encode (.ok ⟨[], 6⟩)) ∧
    process_watch (fun _ => .ok ⟨"cli", "c1", ["t1"], 5⟩) "b"
        ⟨5, [⟨5, "c1", "t1", "p"⟩], "s", true⟩
        (fun _ => ⟨RecvEvent.silent, 0,
          ⟨6, [⟨5, "c1", "t1", "p"⟩, ⟨6, "c1", "t2", "q"⟩], "s", true⟩⟩) 1 =
      .ok (some (response_encode (.ok ⟨[], 6⟩))) ∧
    (⟨[], 6⟩ : WatchData).entry_logs = [] ∧
    elapsedAt (fun _ => ⟨RecvEvent.silent, 0,
        ⟨6, [⟨5, "c1", "t1", "p"⟩, ⟨6, "c1", "t2", "q"⟩], "s", true⟩⟩) 0 ≤ hardCeilingMs :=
  ⟨by decide, rfl, rfl, rfl, by decide⟩

/-- The loop unfolds one check: starting a step with the correct follow
version, it returns the encoding of the data computed at this check when
`dueAt` holds, and otherwise recurses with the advanced follow version. -/
theorem loop_check_unfold (cluster : String) (tenants : List String) (base_ver : Nat)
    (sched : Nat → LoopObs) (fuel n : Nat) :
    processWatchLoop cluster tenants base_ver sched (fuel + 1) n
        (followAt cluster tenants base_ver sched n) =
      if dueAt cluster tenants base_ver sched n then
        some (response_encode (.ok (wdAt cluster tenants base_ver sched n)))
      else
        processWatchLoop cluster tenants base_ver sched fuel (n + 1)
          (followAt cluster tenants base_ver sched (n + 1)) := rfl

/-- If the checks from `n` up to (excluding) `d` are not due and check `d`
is due, the loop started at `n` with enough fuel returns exactly the data
computed at check `d`. -/
theorem loop_returns_at_first_due (cluster : String) (tenants : List String)
    (base_ver : Nat) (sched : Nat → LoopObs) :
    ∀ (fuel n d : Nat), n ≤ d → d < n + fuel →
      (∀ k, n ≤ k → k < d → dueAt cluster tenants base_ver sched k = false) →
      dueAt cluster tenants base_ver sched d = true →
      processWatchLoop cluster tenants base_ver sched fuel n
          (followAt cluster tenants base_ver sched n) =
        some (response_encode (.ok (wdAt cluster tenants base_ver sched d))) := by
  intro fuel
  induction fuel with
  | zero =>
    intro n d h1 h2 _ _
    exact absurd h2 (by omega)
  | succ fuel ih =>
    intro n d h1 h2 hk hd
    rw [loop_check_unfold]
    by_cases hn : n = d
    · subst hn
      rw [if_pos hd]
    · have hnd : n < d := lt_of_le_of_ne h1 hn
      have hfalse : dueAt cluster tenants base_ver sched n = false :=
        hk n (Nat.le_refl n) hnd
      rw [if_neg (by simp [hfalse])]
      exact ih (n + 1) d hnd (by omega) (fun k hk1 hk2 => hk k (by omega) hk2) hd

/-- Conversely, every loop return happens at the first due check from its
start index, and delivers exactly the data computed there. -/
theorem loop_return_has_first_due (cluster : String) (tenants : List String)
    (base_ver : Nat) (sched : Nat → LoopObs) :
    ∀ (fuel n : Nat) (out : String),
      processWatchLoop cluster tenants base_ver sched fuel n
          (followAt cluster tenants base_ver sched n) = some out →
      ∃ d, n ≤ d ∧ d < n + fuel ∧
        (∀ k, n ≤ k → k < d → dueAt cluster tenants base_ver sched k = false) ∧
        dueAt cluster tenants base_ver sched d = true ∧
        out = response_encode (.ok (wdAt cluster tenants base_ver sched d)) := by
  intro fuel
  induction fuel with
  | zero =>
    intro n out h
    rw [processWatchLoop] at h
    exact absurd h (by simp)
  | succ fuel ih =>
    intro n out h
    rw [loop_check_unfold] at h
    by_cases hc : dueAt cluster tenants base_ver sched n = true
    · rw [if_pos hc] at h
      exact ⟨n, Nat.le_refl n, by omega,
        fun k hk1 hk2 => absurd (Nat.lt_of_le_of_lt hk1 hk2) (Nat.lt_irrefl n),
        hc, (Option.some_inj.mp h).symm⟩
    · rw [if_neg hc] at h
      have hcf : dueAt cluster tenants base_ver sched n = false :=
        Bool.not_eq_true _ |>.mp hc
      obtain ⟨d, hd1, hd2, hd3, hd4, hd5⟩ := ih (n + 1) out h
      refine ⟨d, by omega, by omega, fun k hk1 hk2 => ?_, hd4, hd5⟩
      rcases Nat.eq_or_lt_of_le hk1 with he | hl
      · rw [← he]
        exact hcf
      · exact hd3 k hl hk2

/-- C2 as amended: version progress past `base_ver` makes a check due at
*every* check, not only the very first one, because the loop hands the
original `base_ver` (not the follow version) to the due predicate. The
conjuncts: (1) `base_ver < max_ver` alone — an empty filtered entry set
included — makes the data of any check satisfy the due predicate; (2) at
a check at or before the hard ceiling, being due is *exactly* the
base-version predicate on that check's data (entries non-empty or
`base_ver < max_ver`); (3) the loop returns at the first due check, with
exactly that check's data; (4) every loop return arises this way — so
the session returns before the hard ceiling exactly when some check's
data satisfies the base-version due predicate, and the returned data is
that check's. -/
theorem watch_loop_due_predicate_uses_base (cluster : String) (tenants : List String)
    (base_ver : Nat) (sched : Nat → LoopObs) :
    (∀ n, base_ver < (wdAt cluster tenants base_ver sched n).max_ver →
      (wdAt cluster tenants base_ver sched n).need_return base_ver = true) ∧
    (∀ n, elapsedAt sched n ≤ hardCeilingMs →
      dueAt cluster tenants base_ver sched n =
        (wdAt cluster tenants base_ver sched n).need_return base_ver) ∧
    (∀ n fuel, (∀ k, k < n → dueAt cluster tenants base_ver sched k = false) →
      dueAt cluster tenants base_ver sched n = true → n < fuel →
      processWatchLoop cluster tenants base_ver sched fuel 0 base_ver =
        some (response_encode (.ok (wdAt cluster tenants base_ver sched n)))) ∧
    (∀ fuel out,
      processWatchLoop cluster tenants base_ver sched fuel 0 base_ver = some out →
      ∃ n, n < fuel ∧ (∀ k, k < n → dueAt cluster tenants base_ver sched k = false) ∧
        dueAt cluster tenants base_ver sched n = true ∧
        out = response_encode (.ok (wdAt cluster tenants base_ver sched n))) := by
  refine ⟨fun n h => ?_, fun n h => ?_, fun n fuel hk hd hf => ?_, fun fuel out h => ?_⟩
  · simp [WatchData.need_return, h]
  · have hnc : ¬ hardCeilingMs < elapsedAt sched n := Nat.not_lt.mpr h
    simp [dueAt, hnc]
  · exact loop_returns_at_first_due cluster tenants base_ver sched fuel 0 n
      (Nat.zero_le n) (by omega) (fun k _ hk2 => hk k hk2) hd
  · obtain ⟨d, _, hd2, hd3, hd4, hd5⟩ :=
      loop_return_has_first_due cluster tenants base_ver sched fuel 0 out h
    exact ⟨d, by omega, fun k hk => hd3 k (Nat.zero_le k) hk, hd4, hd5⟩

/-- Witness for the amended C2 at the counterexample run: at the first
loop check the data is `⟨[], 6⟩` — version progress alone, empty entry
set — which satisfies the base-version due predicate, equals the due
condition there (elapsed 20 s is at or below the ceiling), makes the
loop return at that check, and is exactly what the return carries. -/
theorem watch_loop_due_predicate_uses_base_witness :
    ((wdAt "c1" ["t1"] 5 (fun _ => ⟨RecvEvent.silent, 0,
        ⟨6, [⟨5, "c1", "t1", "p"⟩, ⟨6, "c1", "t2", "q"⟩], "s", true⟩⟩) 0).need_return 5
      = true) ∧
    (dueAt "c1" ["t1"] 5 (fun _ => ⟨RecvEvent.silent, 0,
        ⟨6, [⟨5, "c1", "t1", "p"⟩, ⟨6, "c1", "t2", "q"⟩], "s", true⟩⟩) 0 =
      (wdAt "c1" ["t1"] 5 (fun _ => ⟨RecvEvent.silent, 0,
        ⟨6, [⟨5, "c1", "t1", "p"⟩, ⟨6, "c1", "t2", "q"⟩], "s", true⟩⟩) 0).need_return 5) ∧
    (processWatchLoop "c1" ["t1"] 5 (fun _ => ⟨RecvEvent.silent, 0,
        ⟨6, [⟨5, "c1", "t1", "p"⟩, ⟨6, "c1", "t2", "q"⟩], "s", true⟩⟩) 1 0 5 =
      some (response_encode (.ok (wdAt "c1" ["t1"] 5 (fun _ => ⟨RecvEvent.silent, 0,
        ⟨6, [⟨5, "c1", "t1", "p"⟩, ⟨6, "c1", "t2", "q"⟩], "s", true⟩⟩) 0)))) ∧
    (∃ n, n < 1 ∧ (∀ k, k < n → dueAt "c1" ["t1"] 5 (fun _ => ⟨RecvEvent.silent, 0,
        ⟨6, [⟨5, "c1", "t1", "p"⟩, ⟨6, "c1", "t2", "q"⟩], "s", true⟩⟩) k = false) ∧
      dueAt "c1" ["t1"] 5 (fun _ => ⟨RecvEvent.silent, 0,
        ⟨6, [⟨5, "c1", "t1", "p"⟩, ⟨6, "c1", "t2", "q"⟩], "s", true⟩⟩) n = true ∧
      "ok:6;" = response_encode (.ok (wdAt "c1" ["t1"] 5 (fun _ => ⟨RecvEvent.silent, 0,
        ⟨6, [⟨5, "c1", "t1", "p"⟩, ⟨6, "c1", "t2", "q"⟩], "s", true⟩⟩) n))) :=
  ⟨(watch_loop_due_predicate_uses_base "c1" ["t1"] 5 (fun _ => ⟨RecvEvent.silent, 0,
      ⟨6, [⟨5, "c1", "t1", "p"⟩, ⟨6, "c1", "t2", "q"⟩], "s", true⟩⟩)).1 0 (by decide),
   (watch_loop_due_predicate_uses_base "c1" ["t1"] 5 (fun _ => ⟨RecvEvent.silent, 0,
      ⟨6, [⟨5, "c1", "t1", "p"⟩, ⟨6, "c1", "t2", "q"⟩], "s", true⟩⟩)).2.1 0 (by decide),
   (watch_loop_due_predicate_uses_base "c1" ["t1"] 5 (fun _ => ⟨RecvEvent.silent, 0,
      ⟨6, [⟨5, "c1", "t1", "p"⟩, ⟨6, "c1", "t2", "q"⟩], "s", true⟩⟩)).2.2.1 0 1
     (fun k hk => absurd hk (Nat.not_lt_zero k)) (by decide) (by decide),
   (watch_loop_due_predicate_uses_base "c1" ["t1"] 5 (fun _ => ⟨RecvEvent.silent, 0,
      ⟨6, [⟨5, "c1", "t1", "p"⟩, ⟨6, "c1", "t2", "q"⟩], "s", true⟩⟩)).2.2.2 1 "ok:6;" rfl⟩

/-- C8: the `debug` route reads the store under shared access and leaves
it unchanged; on success it returns the full-state dump, and when the
persistence layer cannot be read it rejects with that failure, which is
classified as a server error. -/
theorem debug_dump_behaviour (storage : StateMachine) :
    (debug_route storage).storage = storage ∧
    (debug_route storage).accesses = [AccessKind.shared] ∧
    (storage.persistOk = true → (debug_route storage).result = .ok storage.snapshotData) ∧
    (storage.persistOk = false →
      ∃ e, (debug_route storage).result = .error e ∧ e.isServerError = true) := by
  by_cases h : storage.persistOk = true
  · refine ⟨?_, ?_, fun _ => ?_, fun hc => absurd h (by simp [hc])⟩ <;>
      simp [debug_route, StateMachine.dump, h]
  · have hf : storage.persistOk = false := by simpa using h
    refine ⟨?_, ?_, fun hc => absurd hc (by simp [hf]), fun _ =>
      ⟨.persistErr "persistence layer cannot be read", ?_, rfl⟩⟩ <;>
      simp [debug_route, StateMachine.dump, hf]

/-- Witness for C8 at concrete stores: one with a readable persistence
layer (dump succeeds) and one without (server-error rejection), the store
unchanged in both cases. -/
theorem debug_dump_behaviour_witness :
    ((debug_route ⟨0, [], "snap", false⟩).storage = ⟨0, [], "snap", false⟩) ∧
    ((debug_route ⟨2, [], "snap", true⟩).result = .ok "snap") ∧
    (∃ e, (debug_route ⟨0, [], "snap", false⟩).result = .error e ∧ e.isServerError = true) :=
  ⟨(debug_dump_behaviour ⟨0, [], "snap", false⟩).1,
   (debug_dump_behaviour ⟨2, [], "snap", true⟩).2.2.1 rfl,
   (debug_dump_behaviour ⟨0, [], "snap", false⟩).2.2.2 rfl⟩
